import Mathlib

/-!
Verification development for the artifact provisioning scripts
(download_external_deps.py and download_assets.py).

Paths inside archive member names are modelled as lists of characters
(the byte strings Python manipulates); filesystem paths in the
orchestrator model are lists of components.  Network and archive-file
contents are external inputs and enter as explicit parameters.
-/

namespace Rsbl

/-- Python str.split(sep) for a single-character separator:
the empty string splits to a list holding one empty segment, and
separators at the ends give empty segments. -/
def splitChar (sep : Char) : List Char → List (List Char)
  | [] => [[]]
  | c :: cs =>
    let r := splitChar sep cs
    if c = sep then [] :: r
    else
      match r with
      | [] => [[c]]
      | h :: t => (c :: h) :: t

/-- Python sep.join(parts) for a single-character separator. -/
def joinChar (sep : Char) : List (List Char) → List Char
  | [] => []
  | [l] => l
  | l :: ls => l ++ sep :: joinChar sep ls

/-- The path-stripping step shared by extract_zip and extract_tar:
split the member path on '/', drop the member when it has at most
strip_components segments, otherwise rejoin the remainder and drop
the member when the rejoined path is empty. -/
def stripMemberPath (stripComponents : Nat) (member : List Char) : Option (List Char) :=
  let parts := splitChar '/' member
  if parts.length ≤ stripComponents then none
  else
    let newPath := joinChar '/' (parts.drop stripComponents)
    if newPath = [] then none else some newPath

/-- One member of a zip archive, as returned by ZipFile.namelist:
directories are the names ending in a slash. -/
structure ZipMember where
  mname : List Char
  bytes : List Nat
deriving DecidableEq

/-- One member of a tar archive, as returned by TarFile.getmembers. -/
structure TarMember where
  tname : List Char
  isDir : Bool
  bytes : List Nat
deriving DecidableEq

/-- A filesystem effect of extraction: create a directory (with its
ancestors) or stream a member's bytes to a file, both relative to the
destination directory. -/
inductive FsAction where
  | makeDir (path : List Char)
  | writeFile (path : List Char) (bytes : List Nat)
deriving DecidableEq

def zipEndsWithSlash (cs : List Char) : Bool := cs.getLast? == some '/'

/-- Effect of extract_zip on one member. -/
def zipAction (stripComponents : Nat) (m : ZipMember) : Option FsAction :=
  match stripMemberPath stripComponents m.mname with
  | none => none
  | some p => some (if zipEndsWithSlash m.mname then .makeDir p else .writeFile p m.bytes)

/-- extract_zip: loop over namelist, strip leading components, and
materialize each surviving member under the destination. -/
def extract_zip (ms : List ZipMember) (stripComponents : Nat) : List FsAction :=
  ms.filterMap (zipAction stripComponents)

/-- Effect of extract_tar on one member (TarFile.extract of the
renamed member creates a directory or writes the file). -/
def tarAction (stripComponents : Nat) (m : TarMember) : Option FsAction :=
  match stripMemberPath stripComponents m.tname with
  | none => none
  | some p => some (if m.isDir then .makeDir p else .writeFile p m.bytes)

/-- extract_tar: loop over getmembers, strip leading components,
rename and extract each surviving member. -/
def extract_tar (ms : List TarMember) (stripComponents : Nat) : List FsAction :=
  ms.filterMap (tarAction stripComponents)

/-- Modelled from the claim wording of the member relocation rule: a
member whose path has at most stripCount segments is discarded;
otherwise the first stripCount segments are dropped and the remainder
rejoined, the member being discarded when the rejoined path is
empty. -/
def specMemberRelocation (stripCount : Nat) (name : List Char) : Option (List Char) :=
  if (splitChar '/' name).length ≤ stripCount then none
  else if joinChar '/' ((splitChar '/' name).drop stripCount) = [] then none
  else some (joinChar '/' ((splitChar '/' name).drop stripCount))

/-- Boolean prefix test on character lists. -/
def hasPfxC : List Char → List Char → Bool
  | [], _ => true
  | _ :: _, [] => false
  | a :: as, b :: bs => a == b && hasPfxC as bs

/-- Python str.endswith on character lists. -/
def hasSfx (sfx cs : List Char) : Bool := hasPfxC sfx.reverse cs.reverse

/-- Python pathlib suffix of a file name: the part of the name from its
last dot, empty when there is no dot, when the only dot leads the name,
or when the dot is the final character. -/
def pySuffix (cs : List Char) : List Char :=
  if cs.contains '.' then
    if 0 < cs.length - 1 - (cs.reverse.takeWhile (fun c => c != '.')).reverse.length ∧
        0 < (cs.reverse.takeWhile (fun c => c != '.')).reverse.length
    then '.' :: (cs.reverse.takeWhile (fun c => c != '.')).reverse
    else []
  else []

inductive Handler where
  | zipHandler
  | tarHandler
deriving DecidableEq

/-- Outcome of the format dispatch in extract_archive. -/
inductive Dispatch where
  | chosen (h : Handler)
  | unsupported (sfx : List Char)
deriving DecidableEq

/-- The container-format dispatch of extract_archive: names ending in
.zip (or with pathlib suffix .zip) go to extract_zip, names ending in
.tar.gz or .tgz go to extract_tar, anything else is reported as an
unsupported format, naming the pathlib suffix. -/
def extract_archive_dispatch (fname : List Char) : Dispatch :=
  if pySuffix fname = ".zip".data ∨ hasSfx ".zip".data fname then .chosen .zipHandler
  else if hasSfx ".tar.gz".data fname ∨ hasSfx ".tgz".data fname then .chosen .tarHandler
  else .unsupported (pySuffix fname)

/-- extract_archive with the archive's parsed content supplied as
input: the zip index when the file is a zip, the tar member list when
it is a tar.  Returns the success flag and the filesystem actions
performed; an unsupported format fails before touching the
destination. -/
def extract_archive (fname : List Char) (zms : List ZipMember) (tms : List TarMember)
    (stripComponents : Nat) : Bool × List FsAction :=
  match extract_archive_dispatch fname with
  | .chosen .zipHandler => (true, extract_zip zms stripComponents)
  | .chosen .tarHandler => (true, extract_tar tms stripComponents)
  | .unsupported _ => (false, [])

/-- Boolean prefix test on component lists. -/
def hasPfx : List String → List String → Bool
  | [], _ => true
  | _ :: _, [] => false
  | a :: as, b :: bs => a == b && hasPfx as bs

/-- Abstract filesystem and network state: the set of existing paths
(a path exists when it is a component-wise prefix of a recorded entry)
and a count of network transfers performed. -/
structure World where
  entries : List (List String)
  netCalls : Nat
deriving DecidableEq

/-- Record a path (mkdir -p or a file write; ancestors exist implicitly
as prefixes). -/
def addPath (p : List String) (w : World) : World :=
  { w with entries := p :: w.entries }

/-- Path.exists: the path is a prefix of some recorded entry. -/
def pathFound (p : List String) (w : World) : Bool :=
  w.entries.any (fun q => hasPfx p q)

/-- any(path.iterdir()): something strictly below the path exists. -/
def dirNonEmpty (p : List String) (w : World) : Bool :=
  w.entries.any (fun q => hasPfx p q && decide (p.length < q.length))

/-- shutil.rmtree: drop the whole subtree rooted at the path. -/
def rmtree (p : List String) (w : World) : World :=
  { w with entries := w.entries.filter (fun q => !(hasPfx p q)) }

/-- The try/finally cleanup of download_dependency: remove the staging
directory when it exists. -/
def stagingCleanup (temp : List String) (w : World) : World :=
  if pathFound temp w then rmtree temp w else w

/-- Archive file name chosen by download_dependency: the last
slash-separated piece of the url, or name.zip when that piece is
empty. -/
def depArchiveName (name url : String) : String :=
  let lastSeg : String := ⟨(splitChar '/' url.data).getLastD []⟩
  if lastSeg = "" then name ++ ".zip" else lastSeg

/-- The try-block of download_dependency, run on the world that
already holds the staging directory: one network transfer for the
download (outcome is the external input downloadOk); on success the
archive lands in staging, the destination directory is created, and
extraction runs (outcome extractOk, writing the externally supplied
relative paths under the destination).  A false download or
extraction outcome is the function returning False. -/
def depBody (dest temp : List String) (archiveName : String)
    (downloadOk extractOk : Bool) (writes : List (List String)) (w1 : World) :
    Bool × World :=
  let wa := { w1 with netCalls := w1.netCalls + 1 }
  if downloadOk = false then (false, wa)
  else
    let wb := addPath (temp ++ [archiveName]) wa
    let wc := writes.foldl (fun acc p => addPath (dest ++ p) acc) (addPath dest wb)
    (extractOk, wc)

/-- The non-cached path of download_dependency: create the hidden
staging directory next to the destination, run the try-block, and in
all cases remove the staging directory before returning (finally). -/
def depAttempt (ext : List String) (name url : String)
    (downloadOk extractOk : Bool) (writes : List (List String)) (w : World) :
    Bool × World :=
  let dest := ext ++ [name]
  let temp := ext ++ ["." ++ name ++ "_download"]
  let body := depBody dest temp (depArchiveName name url) downloadOk extractOk writes
    (addPath temp w)
  (body.1, stagingCleanup temp body.2)

/-- download_dependency: skip with success when the destination exists
and is non-empty, otherwise stage, download, extract and clean up. -/
def download_dependency (ext : List String) (name url : String)
    (downloadOk extractOk : Bool) (writes : List (List String)) (w : World) :
    Bool × World :=
  let dest := ext ++ [name]
  if pathFound dest w && dirNonEmpty dest w then (true, w)
  else depAttempt ext name url downloadOk extractOk writes w

/-- One dependency entry of external_deps.toml, together with the
external outcomes of its network download and its extraction. -/
structure DepSpec where
  dname : Option String
  durl : Option String
  enabledFlag : Option Bool
  downloadOk : Bool
  extractOk : Bool
  writes : List (List String)
deriving DecidableEq

/-- Summary printed by both downloader scripts, with the process exit
status derived from the failed-name list.  succeeded is computed as
total minus the length of the failed list, as a Python integer. -/
structure RunSummary where
  total : Nat
  succeeded : Int
  failed : List String
  exitCode : Nat
deriving DecidableEq

/-- Body of the dependency loop for one entry: a missing url is an
immediate recorded failure with no filesystem or network effect;
otherwise download_dependency runs and a false result records the
name. -/
def processDep (ext : List String) (i : Nat) (d : DepSpec) (w : World) :
    List String × World :=
  let name := d.dname.getD ("dep_" ++ toString i)
  match d.durl with
  | none => ([name], w)
  | some url =>
    let r := download_dependency ext name url d.downloadOk d.extractOk d.writes w
    (if r.1 then [] else [name], r.2)

def runDepsAux (ext : List String) : Nat → List DepSpec → World → List String →
    List String × World
  | _, [], w, acc => (acc, w)
  | i, d :: rest, w, acc =>
    let r := processDep ext i d w
    runDepsAux ext (i + 1) rest r.2 (acc ++ r.1)

/-- download_dependencies: filter the enabled entries, process them in
order with 1-based indices, and report the summary and exit status. -/
def download_dependencies (ext : List String) (deps : List DepSpec) (w : World) :
    RunSummary × World :=
  let enabledDeps := deps.filter (fun d => d.enabledFlag.getD true)
  let r := runDepsAux ext 1 enabledDeps w []
  (⟨enabledDeps.length, (enabledDeps.length : Int) - r.1.length,
    r.1, if r.1 = [] then 0 else 1⟩, r.2)

/-- Python re.match of the tree-URL pattern: the scheme-and-host
literal, then user, repo and branch as nonempty slash-free runs
delimited by the literal slashes and the literal tree component, and
finally a path group needing at least one character that is not a
newline.  Returns the four groups. -/
def matchTreeUrl (url : String) : Option (List Char × List Char × List Char × List Char) :=
  let cs := url.data
  if hasPfxC "https://github.com/".data cs then
    let r0 := cs.drop "https://github.com/".data.length
    let u := r0.takeWhile (fun c => c != '/')
    if u = [] then none else
    match r0.dropWhile (fun c => c != '/') with
    | '/' :: r2 =>
      let rp := r2.takeWhile (fun c => c != '/')
      if rp = [] then none else
      match r2.dropWhile (fun c => c != '/') with
      | '/' :: r4 =>
        if hasPfxC "tree/".data r4 then
          let r5 := r4.drop "tree/".data.length
          let b := r5.takeWhile (fun c => c != '/')
          if b = [] then none else
          match r5.dropWhile (fun c => c != '/') with
          | '/' :: r7 =>
            let p := r7.takeWhile (fun c => c != '\n')
            if p = [] then none else some (u, rp, b, p)
          | _ => none
        else none
      | _ => none
    | _ => none
  else none

/-- One object of the GitHub contents-API listing, with the external
outcome of fetching that member's raw content. -/
structure GEntry where
  etype : String
  ename : String
  fetchOk : Bool
deriving DecidableEq

/-- External outcome of the directory-listing request: transport
failure, a response that is not a JSON array, or the decoded array. -/
inductive Listing where
  | fetchFail
  | notList
  | entries (es : List GEntry)
deriving DecidableEq

/-- Result of download_gltf_directory: rejected locator (reporting it),
failed listing fetch, or a completed member loop with its overall
flag. -/
inductive GltfOutcome where
  | invalidUrl (reported : String)
  | listingFailed
  | done (allOk : Bool)
deriving DecidableEq

def gltfSuccess : GltfOutcome → Bool
  | .done true => true
  | _ => false

/-- The member loop of download_gltf_directory: entries whose type is
not "file" are skipped; every file entry is fetched (one network call,
name appended to the attempted list) and a failed fetch clears the
success flag without stopping the loop. -/
def fetchMembers : List GEntry → Bool → Nat → List String → Bool × Nat × List String
  | [], success, net, att => (success, net, att)
  | e :: rest, success, net, att =>
    if e.etype = "file" then
      fetchMembers rest (success && e.fetchOk) (net + 1) (att ++ [e.ename])
    else
      fetchMembers rest success net att

/-- download_gltf_directory: a locator the tree-URL pattern rejects
fails at once with no network activity, reporting the locator; then
one network call fetches the listing, whose failure (transport error
or non-array shape) fails the operation; otherwise the member loop
runs.  Returns the outcome, the network calls made, and the names of
the members whose fetch was attempted. -/
def download_gltf_directory (treeUrl : String) (listing : Listing) :
    GltfOutcome × Nat × List String :=
  match matchTreeUrl treeUrl with
  | none => (.invalidUrl treeUrl, 0, [])
  | some _ =>
    match listing with
    | .fetchFail => (.listingFailed, 1, [])
    | .notList => (.listingFailed, 1, [])
    | .entries es =>
      let r := fetchMembers es true 1 []
      (.done r.1, r.2.1, r.2.2)

/-- One asset entry of asset_listing.toml, with the external outcomes
of its downloads. -/
structure AssetSpec where
  aname : Option String
  aurl : Option String
  atype : Option String
  acategory : Option String
  glbOk : Bool
  listing : Listing
deriving DecidableEq

/-- Body of the asset loop for one entry: a missing url is an
immediate recorded failure before the destination directory is even
created; a glb asset is one direct file download; a gltf asset runs
download_gltf_directory; an unrecognized type records the name and
then the generic failure path records it again. -/
def processAsset (root : List String) (i : Nat) (a : AssetSpec) (w : World) :
    List String × World :=
  let name := a.aname.getD ("asset_" ++ toString i)
  match a.aurl with
  | none => ([name], w)
  | some url =>
    let category := a.acategory.getD "uncategorized"
    let dest := root ++ [category, name]
    let w1 := addPath dest w
    if a.atype.getD "glb" = "glb" then
      let w2 := { w1 with netCalls := w1.netCalls + 1 }
      let w3 := if a.glbOk then addPath (dest ++ [name ++ ".glb"]) w2 else w2
      (if a.glbOk then [] else [name], w3)
    else if a.atype.getD "glb" = "gltf" then
      let r := download_gltf_directory url a.listing
      let w2 := { w1 with netCalls := w1.netCalls + r.2.1 }
      (if gltfSuccess r.1 then [] else [name], w2)
    else
      ([name, name], w1)

def runAssetsAux (root : List String) : Nat → List AssetSpec → World → List String →
    List String × World
  | _, [], w, acc => (acc, w)
  | i, a :: rest, w, acc =>
    let r := processAsset root i a w
    runAssetsAux root (i + 1) rest r.2 (acc ++ r.1)

/-- download_assets: create the assets directory, process every entry
in order with 1-based indices, and report the summary and exit
status. -/
def download_assets (root : List String) (assets : List AssetSpec) (w : World) :
    RunSummary × World :=
  let r := runAssetsAux root 1 assets (addPath root w) []
  (⟨assets.length, (assets.length : Int) - r.1.length,
    r.1, if r.1 = [] then 0 else 1⟩, r.2)

theorem splitChar_ne_nil (sep : Char) (cs : List Char) : splitChar sep cs ≠ [] := by
  induction cs with
  | nil => simp [splitChar]
  | cons c cs ih =>
    simp only [splitChar]
    split
    · simp
    · cases h : splitChar sep cs with
      | nil => simp
      | cons a as => simp

theorem joinChar_cons (sep : Char) (l : List Char) (r : List (List Char)) (h : r ≠ []) :
    joinChar sep (l :: r) = l ++ sep :: joinChar sep r := by
  cases r with
  | nil => exact absurd rfl h
  | cons a as => rfl

/-- Join is a left inverse of split: '/'.join(s.split('/')) recovers s. -/
theorem joinChar_splitChar (sep : Char) (cs : List Char) :
    joinChar sep (splitChar sep cs) = cs := by
  induction cs with
  | nil => rfl
  | cons c cs ih =>
    simp only [splitChar]
    by_cases hc : c = sep
    · rw [if_pos hc, joinChar_cons sep [] _ (splitChar_ne_nil sep cs), ih, hc]
      rfl
    · rw [if_neg hc]
      cases h : splitChar sep cs with
      | nil => exact absurd h (splitChar_ne_nil sep cs)
      | cons a as =>
        rw [h] at ih
        cases as with
        | nil =>
          simp [joinChar] at ih
          simp [joinChar, ih]
        | cons b bs =>
          rw [joinChar_cons sep a (b :: bs) (by simp)] at ih
          rw [joinChar_cons sep (c :: a) (b :: bs) (by simp)]
          simp [ih]

theorem hasPfxC_append_same (x y z : List Char) :
    hasPfxC (x ++ y) (x ++ z) = hasPfxC y z := by
  induction x with
  | nil => rfl
  | cons a as ih => simp [hasPfxC, ih]

/-- Dropping up to the last dot lands on a dot when one is present. -/
theorem dropWhile_dot (r : List Char) (h : '.' ∈ r) :
    ∃ rest, r.dropWhile (fun c => c != '.') = '.' :: rest := by
  induction r with
  | nil => simp at h
  | cons a as ih =>
    by_cases ha : a = '.'
    · exact ⟨as, by simp [List.dropWhile_cons, ha]⟩
    · have hm : '.' ∈ as := by
        rcases List.mem_cons.mp h with h1 | h1
        · exact absurd h1.symm ha
        · exact h1
      rcases ih hm with ⟨rest, hrest⟩
      exact ⟨rest, by simp [List.dropWhile_cons, ha, hrest]⟩

/-- A nonempty pathlib suffix really is a suffix of the name. -/
theorem pySuffix_hasSfx (cs t : List Char) (h : pySuffix cs = '.' :: t) :
    hasSfx ('.' :: t) cs = true := by
  unfold pySuffix at h
  by_cases hc : cs.contains '.'
  · rw [if_pos hc] at h
    by_cases hcond : 0 < cs.length - 1 - (cs.reverse.takeWhile (fun c => c != '.')).reverse.length ∧
        0 < (cs.reverse.takeWhile (fun c => c != '.')).reverse.length
    · rw [if_pos hcond] at h
      have ht : (cs.reverse.takeWhile (fun c => c != '.')).reverse = t := by
        simpa using h
      have hdot : '.' ∈ cs.reverse := by
        rw [List.mem_reverse]
        simpa using hc
      rcases dropWhile_dot cs.reverse hdot with ⟨rest, hrest⟩
      have hsplit : cs.reverse = cs.reverse.takeWhile (fun c => c != '.') ++ '.' :: rest := by
        conv_lhs => rw [← List.takeWhile_append_dropWhile (fun c => c != '.') cs.reverse, hrest]
      unfold hasSfx
      rw [← ht]
      have h2 : ('.' :: (cs.reverse.takeWhile (fun c => c != '.')).reverse).reverse
          = cs.reverse.takeWhile (fun c => c != '.') ++ ['.'] := by simp
      rw [h2]
      nth_rewrite 2 [hsplit]
      rw [hasPfxC_append_same]
      simp [hasPfxC]
    · rw [if_neg hcond] at h
      simp at h
  · rw [if_neg hc] at h
    simp at h

theorem hasPfx_append_same (x y z : List String) :
    hasPfx (x ++ y) (x ++ z) = hasPfx y z := by
  induction x with
  | nil => rfl
  | cons a as ih => simp [hasPfx, ih]

theorem hasPfx_refl (p : List String) : hasPfx p p = true := by
  induction p with
  | nil => rfl
  | cons a as ih => simp [hasPfx, ih]

theorem pathFound_rmtree_self (p : List String) (w : World) :
    pathFound p (rmtree p w) = false := by
  unfold pathFound rmtree
  simp only [List.any_eq_false]
  intro q hq
  rcases List.mem_filter.mp hq with ⟨_, hkeep⟩
  simpa using hkeep

theorem pathFound_stagingCleanup_self (p : List String) (w : World) :
    pathFound p (stagingCleanup p w) = false := by
  unfold stagingCleanup
  by_cases h : pathFound p w
  · rw [if_pos h]
    exact pathFound_rmtree_self p w
  · rw [if_neg h]
    exact Bool.not_eq_true _ ▸ (by simpa using h)

theorem pathFound_rmtree_mono (p q : List String) (w : World)
    (h : pathFound p (rmtree q w) = true) : pathFound p w = true := by
  unfold pathFound rmtree at *
  simp only [List.any_eq_true] at *
  rcases h with ⟨x, hx, hpfx⟩
  exact ⟨x, (List.mem_filter.mp hx).1, hpfx⟩

theorem pathFound_stagingCleanup_mono (p q : List String) (w : World)
    (h : pathFound p (stagingCleanup q w) = true) : pathFound p w = true := by
  unfold stagingCleanup at h
  by_cases hq : pathFound q w
  · rw [if_pos hq] at h
    exact pathFound_rmtree_mono p q w h
  · rwa [if_neg hq] at h

theorem netCalls_addPath (p : List String) (w : World) :
    (addPath p w).netCalls = w.netCalls := rfl

theorem netCalls_rmtree (p : List String) (w : World) :
    (rmtree p w).netCalls = w.netCalls := rfl

theorem netCalls_stagingCleanup (p : List String) (w : World) :
    (stagingCleanup p w).netCalls = w.netCalls := by
  unfold stagingCleanup
  by_cases h : pathFound p w
  · rw [if_pos h]
    rfl
  · rw [if_neg h]

theorem netCalls_foldl_addPath (dest : List String) (l : List (List String)) (w : World) :
    (l.foldl (fun acc p => addPath (dest ++ p) acc) w).netCalls = w.netCalls := by
  induction l generalizing w with
  | nil => rfl
  | cons a as ih => simpa [List.foldl_cons] using ih (addPath (dest ++ a) w)

theorem name_ne_tempName (name : String) : name ≠ "." ++ name ++ "_download" := by
  intro h
  have h2 := congrArg String.length h
  rw [String.length_append, String.length_append] at h2
  have e1 : ("." : String).length = 1 := rfl
  have e2 : ("_download" : String).length = 9 := rfl
  rw [e1, e2] at h2
  omega

/-- The destination is never a prefix of the staging directory path. -/
theorem hasPfx_dest_temp (ext : List String) (name : String) :
    hasPfx (ext ++ [name]) (ext ++ ["." ++ name ++ "_download"]) = false := by
  rw [hasPfx_append_same]
  simp [hasPfx, name_ne_tempName name]

theorem netCalls_depBody (dest temp : List String) (archiveName : String)
    (dOk eOk : Bool) (writes : List (List String)) (w1 : World) :
    (depBody dest temp archiveName dOk eOk writes w1).2.netCalls = w1.netCalls + 1 := by
  cases dOk
  · rfl
  · show (writes.foldl (fun acc p => addPath (dest ++ p) acc)
        (addPath dest (addPath (temp ++ [archiveName])
          { w1 with netCalls := w1.netCalls + 1 }))).netCalls = w1.netCalls + 1
    rw [netCalls_foldl_addPath]
    rfl

theorem netCalls_depAttempt (ext : List String) (name url : String)
    (dOk eOk : Bool) (writes : List (List String)) (w : World) :
    (depAttempt ext name url dOk eOk writes w).2.netCalls = w.netCalls + 1 := by
  unfold depAttempt
  rw [netCalls_stagingCleanup, netCalls_depBody]
  rfl

/-- On every path through the non-cached attempt, the staging
directory is absent from the final world. -/
theorem depAttempt_staging_absent (ext : List String) (name url : String)
    (dOk eOk : Bool) (writes : List (List String)) (w : World) :
    pathFound (ext ++ ["." ++ name ++ "_download"])
      (depAttempt ext name url dOk eOk writes w).2 = false := by
  unfold depAttempt
  exact pathFound_stagingCleanup_self _ _

/-- A failed download adds nothing outside the staging directory: the
try-block's world keeps exactly the staged entries. -/
theorem depBody_downloadFail (dest temp : List String) (archiveName : String)
    (eOk : Bool) (writes : List (List String)) (w1 : World) :
    depBody dest temp archiveName false eOk writes w1 =
      (false, { w1 with netCalls := w1.netCalls + 1 }) := by
  rfl

theorem stripMemberPath_eq_spec (k : Nat) (n : List Char) :
    stripMemberPath k n = specMemberRelocation k n := rfl

theorem zipAction_eq_map (k : Nat) (m : ZipMember) :
    zipAction k m = (stripMemberPath k m.mname).map
      (fun p => if zipEndsWithSlash m.mname then FsAction.makeDir p
                else FsAction.writeFile p m.bytes) := by
  unfold zipAction
  cases stripMemberPath k m.mname <;> rfl

theorem tarAction_eq_map (k : Nat) (m : TarMember) :
    tarAction k m = (stripMemberPath k m.tname).map
      (fun p => if m.isDir then FsAction.makeDir p else FsAction.writeFile p m.bytes) := by
  unfold tarAction
  cases stripMemberPath k m.tname <;> rfl

/-- C1.  For every archive member and every non-negative stripCount k,
extraction discards the member when its path has at most k segments;
otherwise it drops the first k segments, rejoins the remainder, and
materializes the member at the rejoined path under the destination,
discarding the member when the rejoined path is empty — for the zip
extraction and the tar extraction alike.  Stated as: each extraction
equals the member-wise relocation the claim describes
(specMemberRelocation), lifted to the member list. -/
theorem claimC1_strip_behavior (k : Nat) (zms : List ZipMember) (tms : List TarMember) :
    extract_zip zms k = zms.filterMap (fun m =>
      (specMemberRelocation k m.mname).map
        (fun p => if zipEndsWithSlash m.mname then FsAction.makeDir p
                  else FsAction.writeFile p m.bytes)) ∧
    extract_tar tms k = tms.filterMap (fun m =>
      (specMemberRelocation k m.tname).map
        (fun p => if m.isDir then FsAction.makeDir p else FsAction.writeFile p m.bytes)) := by
  constructor
  · unfold extract_zip
    congr 1
    funext m
    rw [zipAction_eq_map, stripMemberPath_eq_spec]
  · unfold extract_tar
    congr 1
    funext m
    rw [tarAction_eq_map, stripMemberPath_eq_spec]

theorem filterMap_eq_map_of {α β : Type} (f : α → Option β) (g : α → β) (l : List α)
    (h : ∀ x ∈ l, f x = some (g x)) : l.filterMap f = l.map g := by
  induction l with
  | nil => rfl
  | cons a as ih =>
    rw [List.filterMap_cons, h a (by simp), List.map_cons,
      ih (fun x hx => h x (by simp [hx]))]

/-- With stripCount zero, a member with a nonempty path is kept at
exactly its own path. -/
theorem stripMemberPath_zero (n : List Char) (h : n ≠ []) :
    stripMemberPath 0 n = some n := by
  unfold stripMemberPath
  have h1 : ¬ (splitChar '/' n).length ≤ 0 := by
    simpa [Nat.le_zero, List.length_eq_zero] using splitChar_ne_nil '/' n
  rw [if_neg h1]
  simp only [List.drop_zero, joinChar_splitChar]
  rw [if_neg h]

/-- C3.  Extraction with stripCount 0 is the identity relocation: every
member of the archive is materialized, at its original relative path,
with byte content identical to the member's bytes, for zip and tar
archives alike (members are assumed to carry nonempty paths, the only
paths an archive can meaningfully store). -/
theorem claimC3_roundtrip (zms : List ZipMember) (tms : List TarMember)
    (hz : ∀ m ∈ zms, m.mname ≠ []) (ht : ∀ m ∈ tms, m.tname ≠ []) :
    extract_zip zms 0 = zms.map (fun m =>
      if zipEndsWithSlash m.mname then FsAction.makeDir m.mname
      else FsAction.writeFile m.mname m.bytes) ∧
    extract_tar tms 0 = tms.map (fun m =>
      if m.isDir then FsAction.makeDir m.tname else FsAction.writeFile m.tname m.bytes) := by
  constructor
  · apply filterMap_eq_map_of
    intro m hm
    rw [zipAction_eq_map, stripMemberPath_zero m.mname (hz m hm)]
    rfl
  · apply filterMap_eq_map_of
    intro m hm
    rw [tarAction_eq_map, stripMemberPath_zero m.tname (ht m hm)]
    rfl

/-- Witness for C3 at a concrete two-member zip archive and a concrete
one-member tar archive. -/
theorem claimC3_roundtrip_witness :
    extract_zip [⟨"wrapper/".data, []⟩, ⟨"wrapper/a.txt".data, [104, 105]⟩] 0 =
      [⟨"wrapper/".data, []⟩, (⟨"wrapper/a.txt".data, [104, 105]⟩ : ZipMember)].map (fun m =>
        if zipEndsWithSlash m.mname then FsAction.makeDir m.mname
        else FsAction.writeFile m.mname m.bytes) ∧
    extract_tar [⟨"lib/b.c".data, false, [7]⟩] 0 =
      [(⟨"lib/b.c".data, false, [7]⟩ : TarMember)].map (fun m =>
        if m.isDir then FsAction.makeDir m.tname else FsAction.writeFile m.tname m.bytes) :=
  claimC3_roundtrip _ _ (by decide) (by decide)

/-- Counterexample to C7.  assimp-5.0.1.tar.bz2 is a TAR-style archive
under a bzip2 compression scheme (the tar handler itself, opened in
transparent-decompression mode, could read it), yet the dispatch
refuses every suffix other than .zip, .tar.gz and .tgz: the claim that
a handler is chosen for every TAR-style archive regardless of its
specific compression scheme fails at this input. -/
theorem claimC7_counterexample :
    extract_archive_dispatch "assimp-5.0.1.tar.bz2".data =
      Dispatch.unsupported ".bz2".data ∧
    extract_archive "assimp-5.0.1.tar.bz2".data
      [⟨"a".data, [1]⟩] [⟨"a".data, false, [1]⟩] 0 = (false, []) := by
  constructor
  · decide
  · decide

/-- C7 amended.  The dispatch chooses the zip handler for every name
ending in .zip and the tar handler for every name ending in .tar.gz or
.tgz; for any other name it fails immediately, reporting the name's
pathlib suffix, and performs no filesystem action. -/
theorem claimC7_amended (fname : List Char) (zms : List ZipMember) (tms : List TarMember)
    (k : Nat) :
    (hasSfx ".zip".data fname = true →
      extract_archive fname zms tms k = (true, extract_zip zms k)) ∧
    (hasSfx ".zip".data fname = false →
      (hasSfx ".tar.gz".data fname = true ∨ hasSfx ".tgz".data fname = true) →
      extract_archive fname zms tms k = (true, extract_tar tms k)) ∧
    (hasSfx ".zip".data fname = false → hasSfx ".tar.gz".data fname = false →
      hasSfx ".tgz".data fname = false →
      extract_archive fname zms tms k = (false, []) ∧
      extract_archive_dispatch fname = Dispatch.unsupported (pySuffix fname)) := by
  refine ⟨?_, ?_, ?_⟩
  · intro hz
    have hd : extract_archive_dispatch fname = .chosen .zipHandler := by
      unfold extract_archive_dispatch
      rw [if_pos (Or.inr hz)]
    simp [extract_archive, hd]
  · intro hz htar
    have hne : pySuffix fname ≠ ".zip".data := by
      intro he
      have he2 : pySuffix fname = '.' :: "zip".data := he
      have := pySuffix_hasSfx fname "zip".data he2
      have hzz : ('.' :: "zip".data) = ".zip".data := rfl
      rw [hzz, hz] at this
      exact Bool.false_ne_true this
    have hd : extract_archive_dispatch fname = .chosen .tarHandler := by
      unfold extract_archive_dispatch
      rw [if_neg, if_pos]
      · rcases htar with h1 | h1
        · exact Or.inl h1
        · exact Or.inr h1
      · rintro (h1 | h1)
        · exact hne h1
        · rw [hz] at h1
          exact Bool.false_ne_true h1
    simp [extract_archive, hd]
  · intro hz ht1 ht2
    have hne : pySuffix fname ≠ ".zip".data := by
      intro he
      have he2 : pySuffix fname = '.' :: "zip".data := he
      have := pySuffix_hasSfx fname "zip".data he2
      have hzz : ('.' :: "zip".data) = ".zip".data := rfl
      rw [hzz, hz] at this
      exact Bool.false_ne_true this
    have hd : extract_archive_dispatch fname = .unsupported (pySuffix fname) := by
      unfold extract_archive_dispatch
      rw [if_neg, if_neg]
      · rintro (h1 | h1)
        · rw [ht1] at h1
          exact Bool.false_ne_true h1
        · rw [ht2] at h1
          exact Bool.false_ne_true h1
      · rintro (h1 | h1)
        · exact hne h1
        · rw [hz] at h1
          exact Bool.false_ne_true h1
    exact ⟨by simp [extract_archive, hd], hd⟩

/-- Witness for the amended C7 at three concrete archive names. -/
theorem claimC7_amended_witness :
    extract_archive "sdl.zip".data [⟨"x".data, [2]⟩] [] 3 =
      (true, extract_zip [⟨"x".data, [2]⟩] 3) ∧
    extract_archive "sdl.tar.gz".data [] [⟨"y".data, true, []⟩] 1 =
      (true, extract_tar [⟨"y".data, true, []⟩] 1) ∧
    (extract_archive "sdl.tar.xz".data [] [] 0 = (false, []) ∧
      extract_archive_dispatch "sdl.tar.xz".data = Dispatch.unsupported ".xz".data) := by
  refine ⟨(claimC7_amended "sdl.zip".data [⟨"x".data, [2]⟩] [] 3).1 (by decide),
    (claimC7_amended "sdl.tar.gz".data [] [⟨"y".data, true, []⟩] 1).2.1 (by decide)
      (Or.inl (by decide)), ?_⟩
  have h := (claimC7_amended "sdl.tar.xz".data [] [] 0).2.2 (by decide) (by decide) (by decide)
  refine ⟨h.1, ?_⟩
  rw [h.2]
  decide

/-- Counterexample to C2.  The asset pipeline has no cache gate: with
the asset's destination directory already existing and holding a file,
the run still performs a network transfer for it (netCalls becomes 1),
although the claim promises zero network activity for such an
artifact.  The entry is even recorded as a success while fetching. -/
theorem claimC2_counterexample :
    pathFound ["sample_assets", "uncategorized", "logo"]
      ⟨[["sample_assets", "uncategorized", "logo", "logo.glb"]], 0⟩ = true ∧
    dirNonEmpty ["sample_assets", "uncategorized", "logo"]
      ⟨[["sample_assets", "uncategorized", "logo", "logo.glb"]], 0⟩ = true ∧
    (download_assets ["sample_assets"]
      [⟨some "logo", some "https://example.com/logo.glb", some "glb",
        some "uncategorized", true, .fetchFail⟩]
      ⟨[["sample_assets", "uncategorized", "logo", "logo.glb"]], 0⟩).2.netCalls = 1 ∧
    (download_assets ["sample_assets"]
      [⟨some "logo", some "https://example.com/logo.glb", some "glb",
        some "uncategorized", true, .fetchFail⟩]
      ⟨[["sample_assets", "uncategorized", "logo", "logo.glb"]], 0⟩).1.failed = [] := by
  refine ⟨by decide, by decide, by decide, by decide⟩

/-- C2 amended.  The cache gate belongs to the dependency pipeline
only: download_dependency returns success and leaves the world
untouched (in particular performs no network transfer) exactly when
the destination exists and is non-empty, and performs one network
transfer in every other case; the asset pipeline performs no such
check and always fetches. -/
theorem claimC2_amended (ext : List String) (name url : String) (dOk eOk : Bool)
    (writes : List (List String)) (w : World) :
    (pathFound (ext ++ [name]) w = true ∧ dirNonEmpty (ext ++ [name]) w = true →
      download_dependency ext name url dOk eOk writes w = (true, w)) ∧
    (¬(pathFound (ext ++ [name]) w = true ∧ dirNonEmpty (ext ++ [name]) w = true) →
      (download_dependency ext name url dOk eOk writes w).2.netCalls = w.netCalls + 1) := by
  constructor
  · rintro ⟨h1, h2⟩
    simp only [download_dependency]
    rw [h1, h2]
    rfl
  · intro h
    have hcond : (pathFound (ext ++ [name]) w && dirNonEmpty (ext ++ [name]) w) = false := by
      cases hp : pathFound (ext ++ [name]) w
      · rfl
      · cases hd : dirNonEmpty (ext ++ [name]) w
        · rfl
        · exact absurd ⟨hp, hd⟩ h
    simp only [download_dependency]
    rw [hcond]
    simp only [Bool.false_eq_true, if_false]
    exact netCalls_depAttempt ext name url dOk eOk writes w

/-- Witness for the amended C2: a populated destination is skipped
untouched; an absent one incurs one network transfer. -/
theorem claimC2_amended_witness :
    download_dependency ["external"] "fmt" "https://x/fmt.zip" true true [["inc"]]
      ⟨[["external", "fmt", "inc"]], 0⟩ = (true, ⟨[["external", "fmt", "inc"]], 0⟩) ∧
    (download_dependency ["external"] "fmt" "https://x/fmt.zip" true true [["inc"]]
      ⟨[], 5⟩).2.netCalls = 5 + 1 :=
  ⟨(claimC2_amended ["external"] "fmt" "https://x/fmt.zip" true true [["inc"]]
      ⟨[["external", "fmt", "inc"]], 0⟩).1 ⟨by decide, by decide⟩,
    (claimC2_amended ["external"] "fmt" "https://x/fmt.zip" true true [["inc"]]
      ⟨[], 5⟩).2 (by decide)⟩

/-- C4.  For every dependency artifact that passes the cache gate, the
per-artifact staging directory is absent from the filesystem when
download_dependency returns, on every exit path: download failure,
extraction failure and success alike (the outcome booleans range over
all four combinations). -/
theorem claimC4_staging_absent (ext : List String) (name url : String) (dOk eOk : Bool)
    (writes : List (List String)) (w : World)
    (h : ¬(pathFound (ext ++ [name]) w = true ∧ dirNonEmpty (ext ++ [name]) w = true)) :
    pathFound (ext ++ ["." ++ name ++ "_download"])
      (download_dependency ext name url dOk eOk writes w).2 = false := by
  have hcond : (pathFound (ext ++ [name]) w && dirNonEmpty (ext ++ [name]) w) = false := by
    cases hp : pathFound (ext ++ [name]) w
    · rfl
    · cases hd : dirNonEmpty (ext ++ [name]) w
      · rfl
      · exact absurd ⟨hp, hd⟩ h
  simp only [download_dependency]
  rw [hcond]
  simp only [Bool.false_eq_true, if_false]
  exact depAttempt_staging_absent ext name url dOk eOk writes w

/-- Witness for C4 on the failed-extraction path of a concrete
artifact. -/
theorem claimC4_staging_absent_witness :
    pathFound (["external"] ++ ["." ++ "fmt" ++ "_download"])
      (download_dependency ["external"] "fmt" "https://x/fmt.zip" true false [["inc"]]
        ⟨[], 0⟩).2 = false :=
  claimC4_staging_absent ["external"] "fmt" "https://x/fmt.zip" true false [["inc"]]
    ⟨[], 0⟩ (by decide)

/-- C9.  For a dependency artifact whose destination does not exist
beforehand, a failed download leaves the destination still absent:
the destination directory is created only after the download has
succeeded, so a failed fetch leaves the artifact's workspace state
unchanged. -/
theorem claimC9_fetch_atomicity (ext : List String) (name url : String) (eOk : Bool)
    (writes : List (List String)) (w : World)
    (h : pathFound (ext ++ [name]) w = false) :
    (download_dependency ext name url false eOk writes w).1 = false ∧
    pathFound (ext ++ [name]) (download_dependency ext name url false eOk writes w).2
      = false := by
  have hcond : (pathFound (ext ++ [name]) w && dirNonEmpty (ext ++ [name]) w) = false := by
    rw [h]
    rfl
  simp only [download_dependency]
  rw [hcond]
  simp only [Bool.false_eq_true, if_false]
  simp only [depAttempt]
  rw [depBody_downloadFail]
  refine ⟨rfl, ?_⟩
  have hwa : pathFound (ext ++ [name])
      { addPath (ext ++ ["." ++ name ++ "_download"]) w with
        netCalls := (addPath (ext ++ ["." ++ name ++ "_download"]) w).netCalls + 1 }
      = false := by
    unfold pathFound addPath
    simp only [List.any_cons]
    rw [hasPfx_dest_temp]
    simpa [pathFound] using h
  cases hfinal : pathFound (ext ++ [name])
      (stagingCleanup (ext ++ ["." ++ name ++ "_download"])
        { addPath (ext ++ ["." ++ name ++ "_download"]) w with
          netCalls := (addPath (ext ++ ["." ++ name ++ "_download"]) w).netCalls + 1 }) with
  | false => rfl
  | true =>
    have := pathFound_stagingCleanup_mono _ _ _ hfinal
    rw [hwa] at this
    exact absurd this Bool.false_ne_true

/-- Witness for C9 at a concrete artifact with empty starting
workspace. -/
theorem claimC9_fetch_atomicity_witness :
    (download_dependency ["external"] "glm" "https://x/glm.tar.gz" false true [["doc"]]
      ⟨[["external", "other"]], 2⟩).1 = false ∧
    pathFound (["external"] ++ ["glm"])
      (download_dependency ["external"] "glm" "https://x/glm.tar.gz" false true [["doc"]]
        ⟨[["external", "other"]], 2⟩).2 = false :=
  claimC9_fetch_atomicity ["external"] "glm" "https://x/glm.tar.gz" true [["doc"]]
    ⟨[["external", "other"]], 2⟩ (by decide)

theorem gltfSuccess_done (b : Bool) : gltfSuccess (.done b) = b := by
  cases b <;> rfl

/-- Closed form of the member loop: the file-typed entries are exactly
the ones fetched, in order, and the flag survives exactly when all
their fetches succeed. -/
theorem fetchMembers_spec (es : List GEntry) (s : Bool) (n : Nat) (a : List String) :
    fetchMembers es s n a =
      (s && (es.filter (fun e => e.etype == "file")).all (fun e => e.fetchOk),
       n + (es.filter (fun e => e.etype == "file")).length,
       a ++ (es.filter (fun e => e.etype == "file")).map (fun e => e.ename)) := by
  induction es generalizing s n a with
  | nil => simp [fetchMembers]
  | cons e rest ih =>
    by_cases he : e.etype = "file"
    · simp only [fetchMembers, if_pos he, ih, List.filter_cons, he]
      simp [Bool.and_assoc, Nat.add_assoc, Nat.add_comm]
    · simp only [fetchMembers, if_neg he, ih, List.filter_cons]
      simp [he]

/-- C6.  In remote-directory-listing mode (a locator the pattern
accepts): the names attempted are exactly the file-typed entries of
the listing in order — non-file entries are skipped and a failed
member fetch does not stop the loop — and the operation reports
success exactly when the listing was fetched and decoded and every
file-typed member fetch succeeded (equivalently, it is reported failed
iff the listing fetch fails or at least one member fetch fails). -/
theorem claimC6_directory_policy (url : String) (listing : Listing)
    (h : (matchTreeUrl url).isSome = true) :
    (∀ es, listing = .entries es →
      (download_gltf_directory url listing).2.2 =
        (es.filter (fun e => e.etype == "file")).map (fun e => e.ename)) ∧
    (gltfSuccess (download_gltf_directory url listing).1 = true ↔
      ∃ es, listing = .entries es ∧ ∀ e ∈ es, e.etype = "file" → e.fetchOk = true) := by
  rcases hm : matchTreeUrl url with _ | q
  · rw [hm] at h
    simp at h
  constructor
  · intro es hes
    subst hes
    simp [download_gltf_directory, hm, fetchMembers_spec]
  · cases listing with
    | fetchFail => simp [download_gltf_directory, hm, gltfSuccess]
    | notList => simp [download_gltf_directory, hm, gltfSuccess]
    | entries es =>
      simp only [download_gltf_directory, hm, fetchMembers_spec, gltfSuccess_done,
        Bool.true_and]
      constructor
      · intro hall
        refine ⟨es, rfl, ?_⟩
        intro e he hf
        have hmem : e ∈ es.filter (fun e => e.etype == "file") :=
          List.mem_filter.mpr ⟨he, by simp [hf]⟩
        exact List.all_eq_true.mp hall e hmem
      · rintro ⟨es1, hes, hok⟩
        have hsame : es = es1 := by
          injection hes
        subst hsame
        apply List.all_eq_true.mpr
        intro e he
        rcases List.mem_filter.mp he with ⟨hmem, htype⟩
        exact hok e hmem (by simpa using htype)

/-- Witness for C6 on a concrete accepted locator and a mixed listing
holding a directory entry, a succeeding file and a failing file. -/
theorem claimC6_directory_policy_witness :
    ((download_gltf_directory "https://github.com/KhronosGroup/models/tree/main/2.0/Box"
      (.entries [⟨"dir", "textures", true⟩, ⟨"file", "Box.gltf", true⟩,
        ⟨"file", "Box0.bin", false⟩])).2.2 =
      ([⟨"dir", "textures", true⟩, ⟨"file", "Box.gltf", true⟩,
        (⟨"file", "Box0.bin", false⟩ : GEntry)].filter
          (fun e => e.etype == "file")).map (fun e => e.ename)) ∧
    (gltfSuccess (download_gltf_directory
        "https://github.com/KhronosGroup/models/tree/main/2.0/Box"
        (.entries [⟨"dir", "textures", true⟩, ⟨"file", "Box.gltf", true⟩,
          ⟨"file", "Box0.bin", false⟩])).1 = true ↔
      ∃ es, (Listing.entries [⟨"dir", "textures", true⟩, ⟨"file", "Box.gltf", true⟩,
          ⟨"file", "Box0.bin", false⟩]) = .entries es ∧
        ∀ e ∈ es, e.etype = "file" → e.fetchOk = true) := by
  have h := claimC6_directory_policy
    "https://github.com/KhronosGroup/models/tree/main/2.0/Box"
    (.entries [⟨"dir", "textures", true⟩, ⟨"file", "Box.gltf", true⟩,
      ⟨"file", "Box0.bin", false⟩]) (by decide)
  exact ⟨h.1 _ rfl, h.2⟩

/-- C10.  A locator the tree-URL pattern rejects makes the directory
download fail immediately, reporting the invalid locator, with zero
network requests and no member fetches attempted — whatever the
remote listing would have been. -/
theorem claimC10_invalid_locator (url : String) (listing : Listing)
    (h : matchTreeUrl url = none) :
    download_gltf_directory url listing = (.invalidUrl url, 0, []) := by
  simp [download_gltf_directory, h]

/-- Witness for C10 on a blob-style locator (no tree component). -/
theorem claimC10_invalid_locator_witness :
    download_gltf_directory "https://github.com/KhronosGroup/models/blob/main/2.0/Box"
      (.entries [⟨"file", "Box.gltf", true⟩]) =
      (.invalidUrl "https://github.com/KhronosGroup/models/blob/main/2.0/Box", 0, []) :=
  claimC10_invalid_locator _ _ (by decide)

/-- C8.  A manifest entry with no source url is recorded as a failure
immediately — the world, and with it the network counter, is passed on
unchanged — and the loop continues with the remaining entries; this
holds for the dependency loop and the asset loop alike. -/
theorem claimC8_missing_url (ext root : List String) (i j : Nat) (d : DepSpec)
    (rest : List DepSpec) (w : World) (acc : List String)
    (a : AssetSpec) (arest : List AssetSpec) (w2 : World) (acc2 : List String)
    (hd : d.durl = none) (ha : a.aurl = none) :
    runDepsAux ext i (d :: rest) w acc =
      runDepsAux ext (i + 1) rest w (acc ++ [d.dname.getD ("dep_" ++ toString i)]) ∧
    runAssetsAux root j (a :: arest) w2 acc2 =
      runAssetsAux root (j + 1) arest w2 (acc2 ++ [a.aname.getD ("asset_" ++ toString j)]) := by
  constructor
  · simp [runDepsAux, processDep, hd]
  · simp [runAssetsAux, processAsset, ha]

/-- Witness for C8: one url-less dependency and one url-less asset. -/
theorem claimC8_missing_url_witness :
    runDepsAux ["external"] 1 [⟨some "fmt", none, none, true, true, []⟩] ⟨[], 0⟩ [] =
      runDepsAux ["external"] 2 [] ⟨[], 0⟩ ([] ++ ["fmt"]) ∧
    runAssetsAux ["sample_assets"] 1 [⟨none, none, some "glb", none, true, .fetchFail⟩]
        ⟨[], 3⟩ [] =
      runAssetsAux ["sample_assets"] 2 [] ⟨[], 3⟩ ([] ++ ["asset_1"]) :=
  claimC8_missing_url ["external"] ["sample_assets"] 1 1
    ⟨some "fmt", none, none, true, true, []⟩ [] ⟨[], 0⟩ []
    ⟨none, none, some "glb", none, true, .fetchFail⟩ [] ⟨[], 3⟩ [] rfl rfl

/-- C5 at the failing input.  One asset manifest entry with an unknown
type ("obj") and a url: the loop records the entry's name twice in the
failed list (once in the unknown-type branch, once in the generic
failure branch), so the summary reports succeeded = 1 - 2 = -1 and a
failed list of length 2 for a single failing entry, where the claim
promises succeeded = 0 and the one name listed once.  The exit status
is 1 as claimed. -/
theorem claimC5_eval :
    (download_assets ["sample_assets"]
      [⟨some "duck", some "https://example.com/duck", some "obj", none, true, .fetchFail⟩]
      ⟨[], 0⟩).1 = ⟨1, -1, ["duck", "duck"], 1⟩ := by
  decide

end Rsbl
